import Mathlib

/-!
Verification of the page-selection and partition logic of the PDF split tool
(`PDFSplitTool`): the range parser `applyRange` (source lines 119-146), the
fixed-size partitioner and output assembly in `processPDF` (source lines
148-223), and the process-button guard (source line 444).

JavaScript strings are modelled as `List Char`; the relevant string
operations (`split` with a one-character separator, `trim`, `Number`) are
embedded below with their ECMAScript behaviour on the inputs that occur here.
-/

namespace ToolsHub

/-- A JavaScript string, modelled as its list of characters. -/
abbrev Str := List Char

/-- `String.prototype.split` with a one-character separator: splitting the
empty string gives `[""]`, and every separator occurrence starts a new
(possibly empty) segment, so `"3-".split('-') = ["3", ""]`. -/
def splitOnChar (sep : Char) : Str → List Str
  | [] => [[]]
  | c :: cs =>
    let r := splitOnChar sep cs
    if c = sep then [] :: r
    else
      match r with
      | [] => [[c]]
      | h :: t => (c :: h) :: t

/-- The ECMAScript `WhiteSpace` and `LineTerminator` characters: TAB, LF,
VT, FF, CR, space, NBSP, the Unicode `Zs` spaces, the line/paragraph
separators and ZWNBSP. Both `String.prototype.trim` and the whitespace
skipping of `Number(string)` strip exactly this set. -/
def jsWhitespace (c : Char) : Bool :=
  c = ' ' || c = '\t' || c = '\n' || c = '\r' ||
  c.toNat = 0x0B || c.toNat = 0x0C || c.toNat = 0xA0 || c.toNat = 0x1680 ||
  (0x2000 ≤ c.toNat && c.toNat ≤ 0x200A) ||
  c.toNat = 0x2028 || c.toNat = 0x2029 || c.toNat = 0x202F ||
  c.toNat = 0x205F || c.toNat = 0x3000 || c.toNat = 0xFEFF

/-- `String.prototype.trim`: strip leading and trailing ECMAScript
whitespace. -/
def jsTrim (s : Str) : Str :=
  ((s.dropWhile jsWhitespace).reverse.dropWhile jsWhitespace).reverse

/-- Value of a string of decimal digits. -/
def decimalVal (s : Str) : Nat :=
  s.foldl (fun a c => a * 10 + (c.toNat - 48)) 0

/-- ECMAScript `Number(string)` restricted to the optional-sign
decimal-integer fragment; `none` plays the role of `NaN`. Crucially
`Number("") = 0` (the empty string, and a whitespace-only string, convert to
`0`, not `NaN`), which is what makes tokens such as `"3-"` parse as a pair
below. Strings outside this fragment (fractional, exponent, hex, `Infinity`
forms) are mapped to `none`, so theorems that quantify over all input
strings restrict themselves to inputs on which this model agrees with the
program: `numericForm` below decides exactly which components ECMAScript
converts at all, and `jsNumberRat` refines this conversion to fractional
decimal literals. -/
def jsNumber (s : Str) : Option Int :=
  let t := jsTrim s
  if t = [] then some 0
  else
    match t with
    | '-' :: r => if r ≠ [] ∧ r.all Char.isDigit then some (-(decimalVal r : Int)) else none
    | '+' :: r => if r ≠ [] ∧ r.all Char.isDigit then some ((decimalVal r : Int)) else none
    | _ => if t.all Char.isDigit then some ((decimalVal t : Int)) else none

/-- Hexadecimal digit, as in an ECMAScript `0x` literal. -/
def isHexDigitChar (c : Char) : Bool :=
  c.isDigit || ('a' ≤ c && c ≤ 'f') || ('A' ≤ c && c ≤ 'F')

/-- Octal digit, as in an ECMAScript `0o` literal. -/
def isOctalDigitChar (c : Char) : Bool := '0' ≤ c && c ≤ '7'

/-- Binary digit, as in an ECMAScript `0b` literal. -/
def isBinaryDigitChar (c : Char) : Bool := c = '0' || c = '1'

/-- `SignedInteger`: an optional sign followed by one or more decimal
digits (the exponent body of the ECMAScript numeric grammar). -/
def signDigits (x : Str) : Bool :=
  match x with
  | [] => false
  | ch :: r =>
    if ch = '+' || ch = '-' then !r.isEmpty && r.all Char.isDigit
    else (ch :: r).all Char.isDigit

/-- `ExponentPart`: `e` or `E` followed by a signed integer. -/
def expPart (r : Str) : Bool :=
  match r with
  | ch :: x => (ch = 'e' || ch = 'E') && signDigits x
  | [] => false

/-- What may follow the leading digits of a `StrUnsignedDecimalLiteral`:
nothing, an exponent part, or a dot with optional digits and an optional
exponent part. -/
def afterIntDigits (r : Str) : Bool :=
  r.isEmpty || expPart r ||
  (match r with
   | '.' :: r2 =>
     (r2.dropWhile Char.isDigit).isEmpty || expPart (r2.dropWhile Char.isDigit)
   | _ => false)

/-- Decimal form of `StrUnsignedDecimalLiteral` (digits with optional
fraction and exponent, or a leading dot with digits and optional
exponent). -/
def decForm (t : Str) : Bool :=
  if (t.takeWhile Char.isDigit).isEmpty then
    match t with
    | '.' :: r2 =>
      !(r2.takeWhile Char.isDigit).isEmpty &&
        ((r2.dropWhile Char.isDigit).isEmpty || expPart (r2.dropWhile Char.isDigit))
    | _ => false
  else afterIntDigits (t.dropWhile Char.isDigit)

/-- `StrUnsignedDecimalLiteral`: `Infinity` or a decimal form. -/
def unsignedDecForm (t : Str) : Bool := t == "Infinity".data || decForm t

/-- `StrDecimalLiteral`: an optional sign followed by an unsigned decimal
literal. -/
def signedDecForm (t : Str) : Bool :=
  match t with
  | [] => false
  | ch :: r =>
    if ch = '+' || ch = '-' then unsignedDecForm r else unsignedDecForm (ch :: r)

/-- `NonDecimalIntegerLiteral`: a hex, octal or binary literal (no sign
allowed). -/
def radixIntForm (t : Str) : Bool :=
  match t with
  | '0' :: x :: r =>
    ((x = 'x' || x = 'X') && !r.isEmpty && r.all isHexDigitChar) ||
    ((x = 'o' || x = 'O') && !r.isEmpty && r.all isOctalDigitChar) ||
    ((x = 'b' || x = 'B') && !r.isEmpty && r.all isBinaryDigitChar)
  | _ => false

/-- Decides ECMAScript's `StringNumericLiteral` grammar: exactly the strings
that `Number(string)` converts to a value rather than `NaN` (after stripping
surrounding whitespace: empty, a signed decimal literal with optional
fraction/exponent or `Infinity`, or an unsigned hex/octal/binary literal).
`numericForm c = false` therefore means `Number(c)` is `NaN` in the
program. -/
def numericForm (c : Str) : Bool :=
  let t := jsTrim c
  t.isEmpty || signedDecForm t || radixIntForm t

/-- Exact rational value of a digit string read as a decimal fraction part:
`digits / 10 ^ length`. -/
def fracVal (d : Str) : ℚ := (decimalVal d : ℚ) / (10 : ℚ) ^ d.length

/-- Value of a `StrUnsignedDecimalLiteral` without exponent: `digits`,
`digits.digits?` or `.digits`, as an exact rational. -/
def decValRat (t : Str) : Option ℚ :=
  let d1 := t.takeWhile Char.isDigit
  let r1 := t.dropWhile Char.isDigit
  if d1.isEmpty then
    match t with
    | '.' :: r2 =>
      if !r2.isEmpty && r2.all Char.isDigit then some (fracVal r2) else none
    | _ => none
  else
    match r1 with
    | [] => some ((decimalVal d1 : ℚ))
    | '.' :: r2 =>
      if r2.all Char.isDigit then some ((decimalVal d1 : ℚ) + fracVal r2)
      else none
    | _ => none

/-- Refinement of `jsNumber` to the fractional decimal fragment, with exact
rational values. On optional-sign decimal-integer strings it agrees with
`jsNumber`; on fractional literals such as `"0.5"` it returns the
mathematical value, which coincides with the program's IEEE-double value
whenever that value is exactly representable (as `0.5` is). Exponent, hex
and `Infinity` forms remain `none`; the theorems invoke this refinement only
at concrete inputs inside its fragment. -/
def jsNumberRat (s : Str) : Option ℚ :=
  let t := jsTrim s
  if t = [] then some 0
  else
    match t with
    | '-' :: r => (decValRat r).map fun q => -q
    | '+' :: r => decValRat r
    | _ => decValRat t

/-- `parseToken` over the fractional refinement: the same token logic of
source lines 125-140 with `jsNumberRat` in place of `jsNumber`. The JS
`for` loop of the pair branch starts at `lo = min a b` and steps by one
while `i ≤ hi = max a b`, so it visits exactly `lo + m` for
`m = 0, ..., ⌊hi - lo⌋` (`lo ≤ hi` always holds); the guard admits
`0 < i ≤ N`. -/
def parseTokenRat (N : Nat) (part : Str) : List ℚ :=
  match (splitOnChar '-' (jsTrim part)).map jsNumberRat with
  | [some v] => if 0 < v ∧ v ≤ (N : ℚ) then [v - 1] else []
  | [some a, some b] =>
    let lo := min a b
    let hi := max a b
    (List.range ((hi - lo).floor.toNat + 1)).filterMap fun (m : Nat) =>
      let i : ℚ := lo + (m : ℚ)
      if 0 < i ∧ i ≤ (N : ℚ) then some (i - 1) else none
  | _ => []

/-- The `selectedIndices` set of `applyRange` (source lines 122-140) over
the fractional refinement: the JS `Set<number>` holds IEEE doubles, so
fractional tokens put fractional values in it. -/
def applyRangeSetRat (rangeInput : Str) (N : Nat) : Finset ℚ :=
  ((splitOnChar ',' rangeInput).flatMap (parseTokenRat N)).toFinset

/-- Mirror of the `PagePreview` interface (source lines 17-21): a zero-based
page index, the preview image URL, and the UI-owned selection flag. -/
structure PagePreview where
  index : Int
  imageUrl : Str
  selected : Bool
deriving DecidableEq

/-- The split mode: `'custom' | 'fixed'` (source line 28). -/
inductive Mode
  | custom
  | fixed
deriving DecidableEq

/-- The custom-mode output shape: `'single' | 'separate'` (source line 29). -/
inductive OutputMode
  | single
  | separate
deriving DecidableEq

/-- Indices contributed by one comma-separated token: the body of the
`parts.forEach` callback of `applyRange` (source lines 125-140). The token is
trimmed, split on `'-'` and converted by `Number`. One numeric value `v`
selects index `v - 1` when `0 < v ≤ N`; two numeric values select `i - 1` for
every `i` between their min and max with `0 < i ≤ N` (the JS `for` loop runs
`i` from `min` to `max` and the guard admits only `0 < i ≤ N`, so the same
values are enumerated here through `1..N`); any other shape contributes
nothing. -/
def parseToken (N : Nat) (part : Str) : List Int :=
  match (splitOnChar '-' (jsTrim part)).map jsNumber with
  | [some v] => if 0 < v ∧ v ≤ (N : Int) then [v - 1] else []
  | [some a, some b] =>
    let lo := min a b
    let hi := max a b
    (List.range N).filterMap fun (j : Nat) =>
      let i : Int := (j : Int) + 1
      if lo ≤ i ∧ i ≤ hi then some (i - 1) else none
  | _ => []

/-- The `selectedIndices` set accumulated over a list of tokens
(source lines 122-140); the JS `Set<number>` is a `Finset ℤ`. -/
def applyRangeParts (N : Nat) (parts : List Str) : Finset Int :=
  (parts.flatMap (parseToken N)).toFinset

/-- The `selectedIndices` set computed by `applyRange` from the raw input
string: split on commas, then accumulate each token (source lines 122-140). -/
def applyRangeSet (rangeInput : Str) (N : Nat) : Finset Int :=
  applyRangeParts N (splitOnChar ',' rangeInput)

/-- `applyRange` (source lines 119-146) as a transformation of the page list:
it returns the pages unchanged when the input string is empty (`!rangeInput`)
or the mode is `'fixed'`; otherwise every page's `selected` flag is replaced
by membership of its index in the parsed set. -/
def applyRange (mode : Mode) (rangeInput : Str) (pages : List PagePreview) :
    List PagePreview :=
  if rangeInput = [] ∨ mode = Mode.fixed then pages
  else
    let selectedIndices := applyRangeSet rangeInput pages.length
    pages.map fun p => { p with selected := decide (p.index ∈ selectedIndices) }

/-- `Math.ceil(pages.length / fixedRange)` (source line 160), for `k ≥ 1`. -/
def chunkCount (N k : Nat) : Nat := (N + k - 1) / k

/-- `start = i * fixedRange` (source line 163). -/
def chunkStart (k i : Nat) : Nat := i * k

/-- `end = Math.min(start + fixedRange, pages.length)` (source line 164). -/
def chunkEnd (N k i : Nat) : Nat := min (i * k + k) N

/-- `Array.from({length: end - start}, (_, j) => j + start)`
(source line 166): the zero-based indices of chunk `i`. -/
def chunkIndices (N k i : Nat) : List Nat :=
  (List.range (chunkEnd N k i - chunkStart k i)).map fun j => j + chunkStart k i

/-- The list of page-index groups produced by the fixed-size split loop
(source lines 162-175). -/
def fixedChunks (N k : Nat) : List (List Nat) :=
  (List.range (chunkCount N k)).map (chunkIndices N k)

/-- Decimal rendering of a natural number, as a JS string. -/
def natStr (n : Nat) : Str := (Nat.repr n).data

/-- Decimal rendering of an integer, as a JS string. -/
def intStr (i : Int) : Str := (Int.repr i).data

/-- The zip entry written for chunk `i`: filename
`part_${i+1}_pages_${start+1}-${end}.pdf` and the copied page indices
(source lines 166-174). -/
def fixedEntry (N k i : Nat) : Str × List Int :=
  ("part_".data ++ natStr (i + 1) ++ "_pages_".data ++ natStr (chunkStart k i + 1)
      ++ "-".data ++ natStr (chunkEnd N k i) ++ ".pdf".data,
   (chunkIndices N k i).map fun j => (j : Int))

/-- A produced download artifact: a single PDF holding the given source page
indices, or a zip archive of named single/grouped PDFs (each entry carries
the source page indices copied into it). -/
inductive Artifact
  | pdf (filename : Str) (indices : List Int)
  | zip (filename : Str) (entries : List (Str × List Int))
deriving DecidableEq

/-- Outcome of one `processPDF` invocation: the artifact set as the result
(`none` when the empty-selection guard returns early, source line 184), and
whether the user-facing `alert` notice fired. In the source the alert fires
only in the `catch` branch on a library exception (source line 219); the pure
model has no failing library calls, so no reachable path alerts. -/
structure SplitOutcome where
  result : Option Artifact
  alerted : Bool
deriving DecidableEq

/-- `processPDF` (source lines 148-223) as a pure function of the
configuration and page list; `Date.now()` is the `timestamp` parameter.
Fixed mode zips one document per chunk (source lines 158-179); custom mode
returns early on an empty selection (line 184), merges into one PDF in
`'single'` output (lines 187-196), and zips one single-page document per
selected page in `'separate'` output (lines 199-213). -/
def processPDF (mode : Mode) (outputMode : OutputMode) (fixedRange : Nat)
    (timestamp : Nat) (pages : List PagePreview) : SplitOutcome :=
  match mode with
  | Mode.fixed =>
    let entries := (List.range (chunkCount pages.length fixedRange)).map
      (fixedEntry pages.length fixedRange)
    { result := some (Artifact.zip
        ("split_fixed_".data ++ natStr timestamp ++ ".zip".data) entries),
      alerted := false }
  | Mode.custom =>
    let selectedPages := pages.filter fun p => p.selected
    if selectedPages.length = 0 then { result := none, alerted := false }
    else
      match outputMode with
      | OutputMode.single =>
        { result := some (Artifact.pdf
            ("extracted_".data ++ natStr timestamp ++ ".pdf".data)
            (selectedPages.map fun p => p.index)),
          alerted := false }
      | OutputMode.separate =>
        { result := some (Artifact.zip
            ("extracted_pages_".data ++ natStr timestamp ++ ".zip".data)
            (selectedPages.map fun p =>
              ("page_".data ++ intStr (p.index + 1) ++ ".pdf".data, [p.index]))),
          alerted := false }

/-- The `disabled` condition of the process button (source line 444):
processing in flight, or custom mode with nothing selected. -/
def processDisabled (isProcessing : Bool) (mode : Mode)
    (pages : List PagePreview) : Bool :=
  isProcessing || (decide (mode = Mode.custom)
    && decide ((pages.filter fun p => p.selected).length = 0))

lemma parseToken_mem_bounds (N : Nat) (part : Str) :
    ∀ i ∈ parseToken N part, 0 ≤ i ∧ i < (N : Int) := by
  intro i hi
  unfold parseToken at hi
  split at hi
  · split at hi
    · next hc =>
      simp only [List.mem_singleton] at hi
      omega
    · simp at hi
  · simp only [List.mem_filterMap, List.mem_range] at hi
    obtain ⟨j, hj, hf⟩ := hi
    split at hf
    · simp only [Option.some.injEq] at hf
      omega
    · simp at hf
  · simp at hi

/-- C1 counterexample: the claimed bound fails on fractional tokens. Over a
10-page document the range string `"0.5"` converts with
`Number("0.5") = 0.5`, passes the guards (`0.5 > 0` and `0.5 ≤ 10`), and the
parser adds `0.5 - 1 = -0.5` to `selectedIndices` — a value outside
`[0, N)`. `0.5` and `-0.5` are exactly representable doubles and the
arithmetic involved is exact, so the fractional model is faithful at this
input. -/
theorem parse_fractional_counterexample :
    (-(1/2) : ℚ) ∈ applyRangeSetRat "0.5".data 10 ∧ ¬(0 ≤ (-(1/2) : ℚ)) := by
  have h5 : fracVal ['5'] = 1/2 := by
    have hd : decimalVal ['5'] = 5 := by decide
    have hl : (['5'] : Str).length = 1 := rfl
    unfold fracVal
    rw [hd, hl]
    norm_num
  have htok : parseTokenRat 10 "0.5".data =
      if 0 < (((0:ℕ):ℚ) + fracVal ['5']) ∧ (((0:ℕ):ℚ) + fracVal ['5']) ≤ ((10:ℕ):ℚ)
      then [(((0:ℕ):ℚ) + fracVal ['5']) - 1] else [] := rfl
  have hval : (((0:ℕ):ℚ) + fracVal ['5']) - 1 = -(1/2) := by
    rw [h5]
    norm_num
  have hfull : parseTokenRat 10 "0.5".data = [(-(1/2) : ℚ)] := by
    rw [htok, if_pos ?_, hval]
    rw [h5]
    constructor <;> norm_num
  constructor
  · have hsp : splitOnChar ',' "0.5".data = ["0.5".data] := by decide
    unfold applyRangeSetRat
    rw [hsp]
    simp [hfull]
  · norm_num

/-- C1 amended: over range strings in the decimal-integer fragment — every
dash-component of every comma token converts under the integer `Number`
model, the domain on which the embedding agrees exactly with the program —
every index produced by the range parser lies in `[0, pageCount)`, and the
produced selection is a set without repeated indices (duplicate tokens
covering the same page collapse to one selection). Fractional tokens are
excluded: `"0.5"` puts `-0.5` in the selection set. -/
theorem applyRange_indices_in_bounds (s : Str) (N : Nat)
    (_h : ∀ part ∈ splitOnChar ',' s, ∀ c ∈ splitOnChar '-' (jsTrim part),
      (jsNumber c).isSome = true) :
    (∀ i ∈ applyRangeSet s N, 0 ≤ i ∧ i < (N : Int)) ∧
      (applyRangeSet s N).val.Nodup := by
  refine ⟨?_, (applyRangeSet s N).nodup⟩
  intro i hi
  rw [applyRangeSet, applyRangeParts, List.mem_toFinset, List.mem_flatMap] at hi
  obtain ⟨part, _, hp⟩ := hi
  exact parseToken_mem_bounds N part i hp

/-- C1 witness: the bound instantiated on the range string `"1-3"` over a
10-page document at the produced index `0`; both components of the single
token are decimal-integer literals. -/
theorem applyRange_indices_in_bounds_witness :
    (0 : Int) ∈ applyRangeSet "1-3".data 10 ∧ (0 ≤ (0 : Int) ∧ (0 : Int) < (10 : Nat)) :=
  ⟨by decide, (applyRange_indices_in_bounds "1-3".data 10 (by decide)).1 0 (by decide)⟩

/-- C3 counterexample: the spec example is miscomputed — parsing
`"1-3, 5, 8"` over a 10-page document does not yield `{0,1,2,5,7}`: the
token `5` selects page 5, whose zero-based index is `4`, not `5`. -/
theorem parse_example_counterexample :
    applyRangeSet "1-3, 5, 8".data 10 ≠ {0, 1, 2, 5, 7} ∧
      (4 : Int) ∈ applyRangeSet "1-3, 5, 8".data 10 ∧
      (5 : Int) ∉ applyRangeSet "1-3, 5, 8".data 10 := by
  refine ⟨?_, by decide, by decide⟩
  decide

/-- C3 amended: parsing `"1-3, 5, 8"` over a 10-page document yields the
zero-based index set `{0,1,2,4,7}`. -/
theorem parse_example_amended :
    applyRangeSet "1-3, 5, 8".data 10 = {0, 1, 2, 4, 7} := by decide

/-- C4 counterexample: `"3-"` is not ignored — JavaScript converts the empty
string after the dash with `Number("") = 0`, so the token parses as the pair
`(3, 0)` and selects pages 1-3. Removing it from `"1, 3-"` therefore changes
the parse result, contrary to the claim that such tokens contribute no
indices. -/
theorem malformed_token_counterexample :
    applyRangeSet "1, 3-".data 10 ≠ applyRangeSet "1".data 10 ∧
      applyRangeSet "1, 3-".data 10 = {0, 1, 2} ∧
      applyRangeSet "1".data 10 = {0} := by
  refine ⟨?_, by decide, by decide⟩
  decide

lemma takeWhile_dropWhile_of_all (p : Char → Bool) (l : Str)
    (h : l.all p = true) : l.takeWhile p = l ∧ l.dropWhile p = [] := by
  induction l with
  | nil => simp
  | cons a t ih =>
    simp only [List.all_cons, Bool.and_eq_true] at h
    simp [List.takeWhile_cons, List.dropWhile_cons, h.1, ih h.2]

lemma jsNumber_some_numericForm (c : Str) (v : Int) (h : jsNumber c = some v) :
    numericForm c = true := by
  simp only [jsNumber] at h
  unfold numericForm
  split at h
  · next ht =>
    rw [ht]
    rfl
  · next hne =>
    have hdigits : ∀ (ch : Char) (r : Str), Char.isDigit ch = true →
        r.all Char.isDigit = true → signedDecForm (ch :: r) = true := by
      intro ch r hch hr
      have h1 : ch ≠ '+' := by
        intro hh
        rw [hh] at hch
        exact absurd hch (by decide)
      have h2 : ch ≠ '-' := by
        intro hh
        rw [hh] at hch
        exact absurd hch (by decide)
      have hall : (ch :: r).all Char.isDigit = true := by
        simp [List.all_cons, hch, hr]
      obtain ⟨htw, hdw⟩ := takeWhile_dropWhile_of_all Char.isDigit (ch :: r) hall
      have hd : decForm (ch :: r) = true := by
        unfold decForm
        rw [htw, hdw, if_neg (by simp)]
        rfl
      simp only [signedDecForm]
      rw [if_neg (by simp [h1, h2])]
      simp [unsignedDecForm, hd]
    split at h
    · next r heq =>
      split at h
      · next hcond =>
        obtain ⟨hrne, hdig⟩ := hcond
        obtain ⟨a, r', rfl⟩ := List.exists_cons_of_ne_nil hrne
        rw [heq]
        obtain ⟨htw, hdw⟩ := takeWhile_dropWhile_of_all Char.isDigit (a :: r') hdig
        have hd : decForm (a :: r') = true := by
          unfold decForm
          rw [htw, hdw, if_neg (by simp)]
          rfl
        have hs : signedDecForm ('-' :: a :: r') = true := by
          simp only [signedDecForm]
          rw [if_pos (by decide)]
          simp [unsignedDecForm, hd]
        simp [hs]
      · exact absurd h (by simp)
    · next r heq =>
      split at h
      · next hcond =>
        obtain ⟨hrne, hdig⟩ := hcond
        obtain ⟨a, r', rfl⟩ := List.exists_cons_of_ne_nil hrne
        rw [heq]
        obtain ⟨htw, hdw⟩ := takeWhile_dropWhile_of_all Char.isDigit (a :: r') hdig
        have hd : decForm (a :: r') = true := by
          unfold decForm
          rw [htw, hdw, if_neg (by simp)]
          rfl
        have hs : signedDecForm ('+' :: a :: r') = true := by
          simp only [signedDecForm]
          rw [if_pos (by decide)]
          simp [unsignedDecForm, hd]
        simp [hs]
      · exact absurd h (by simp)
    · split at h
      · next hall =>
        rcases hq : jsTrim c with _ | ⟨ch, r⟩
        · exact absurd hq hne
        · rw [hq] at hall
          simp only [List.all_cons, Bool.and_eq_true] at hall
          have hs := hdigits ch r hall.1 hall.2
          simp [hs]
      · exact absurd h (by simp)

/-- C4 amended: a token whose dash-split does not produce exactly one or
exactly two components matching ECMAScript's numeric-literal grammar
(e.g. `"abc"`, `"a-b"`, `"1-2-3"`) contributes no selected indices, and the
parse result equals the parse with that token removed; no error is surfaced
(the parser is total). Tokens such as `"3-"` or `"-5"` are not of this kind:
`Number("") = 0`, so they parse as two-number ranges with endpoint `0`;
convertible forms like `"5e0"` or `"1.5"` are likewise outside the
malformed set. -/
theorem malformed_token_ignored (N : Nat) (l₁ l₂ : List Str) (bad : Str)
    (h : ((splitOnChar '-' (jsTrim bad)).length ≠ 1 ∧
          (splitOnChar '-' (jsTrim bad)).length ≠ 2) ∨
         ∃ c ∈ splitOnChar '-' (jsTrim bad), numericForm c = false) :
    parseToken N bad = [] ∧
      applyRangeParts N (l₁ ++ bad :: l₂) = applyRangeParts N (l₁ ++ l₂) := by
  have hnone : ∀ (c : Str), numericForm c = false → jsNumber c = none := by
    intro c hc
    cases hj : jsNumber c with
    | none => rfl
    | some v =>
      rw [jsNumber_some_numericForm c v hj] at hc
      exact absurd hc (by simp)
  have hnil : parseToken N bad = [] := by
    unfold parseToken
    split
    · next v heq =>
      exfalso
      rcases h with ⟨hl1, _⟩ | ⟨c, hc, hform⟩
      · have hlen := congrArg List.length heq
        simp at hlen
        exact hl1 hlen
      · have hmem : jsNumber c ∈ (splitOnChar '-' (jsTrim bad)).map jsNumber :=
          List.mem_map_of_mem _ hc
        rw [heq, hnone c hform] at hmem
        simp at hmem
    · next a b heq =>
      exfalso
      rcases h with ⟨_, hl2⟩ | ⟨c, hc, hform⟩
      · have hlen := congrArg List.length heq
        simp at hlen
        exact hl2 hlen
      · have hmem : jsNumber c ∈ (splitOnChar '-' (jsTrim bad)).map jsNumber :=
          List.mem_map_of_mem _ hc
        rw [heq, hnone c hform] at hmem
        simp at hmem
    · rfl
  refine ⟨hnil, ?_⟩
  unfold applyRangeParts
  rw [List.flatMap_append, List.flatMap_cons, hnil, List.flatMap_append]
  simp

/-- C4 witness: removing the token `"abc"` — whose single component matches
no numeric-literal form — from the token list `["1", "abc", "2"]` leaves
the parse over a 10-page document unchanged. -/
theorem malformed_token_ignored_witness :
    applyRangeParts 10 ["1".data, "abc".data, "2".data] =
      applyRangeParts 10 ["1".data, "2".data] :=
  (malformed_token_ignored 10 ["1".data] ["2".data] "abc".data
    (Or.inr ⟨"abc".data, by decide, by decide⟩)).2

/-- C9: a two-component token is symmetric in its endpoints — any token
parsing as the pair `(a, b)` yields the same indices as any token parsing as
`(b, a)`, namely the pages from `min a b` to `max a b` clamped to
`[1, N]`; in particular `"5-2"` over a 10-page document yields the
zero-based set `{1,2,3,4}`. -/
theorem range_token_symmetric :
    (∀ (N : Nat) (t t' : Str) (a b : Int),
        (splitOnChar '-' (jsTrim t)).map jsNumber = [some a, some b] →
        (splitOnChar '-' (jsTrim t')).map jsNumber = [some b, some a] →
        parseToken N t = parseToken N t') ∧
      (∀ (N : Nat) (t : Str) (a b : Int),
        (splitOnChar '-' (jsTrim t)).map jsNumber = [some a, some b] →
        ∀ i : Int, i ∈ parseToken N t ↔
          min a b ≤ i + 1 ∧ i + 1 ≤ max a b ∧ 1 ≤ i + 1 ∧ i + 1 ≤ (N : Int)) ∧
      applyRangeSet "5-2".data 10 = {1, 2, 3, 4} := by
  have hpair : ∀ (N : Nat) (t : Str) (a b : Int),
      (splitOnChar '-' (jsTrim t)).map jsNumber = [some a, some b] →
      parseToken N t = (List.range N).filterMap fun (j : Nat) =>
        if min a b ≤ (j : Int) + 1 ∧ (j : Int) + 1 ≤ max a b then
          some ((j : Int) + 1 - 1) else none := by
    intro N t a b h
    unfold parseToken
    rw [h]
  refine ⟨?_, ?_, by decide⟩
  · intro N t t' a b h h'
    rw [hpair N t a b h, hpair N t' b a h']
    simp only [min_comm, max_comm]
  · intro N t a b h i
    rw [hpair N t a b h]
    simp only [List.mem_filterMap, List.mem_range]
    constructor
    · rintro ⟨j, hj, hf⟩
      split at hf
      · simp only [Option.some.injEq] at hf
        omega
      · simp at hf
    · rintro ⟨h1, h2, h3, h4⟩
      refine ⟨i.toNat, by omega, ?_⟩
      have hji : ((i.toNat : Int)) + 1 = i + 1 := by omega
      rw [hji, if_pos ⟨h1, h2⟩, Option.some.injEq]
      omega

/-- C9 witness: the symmetry applied to the concrete tokens `"5-2"` and
`"2-5"` over a 10-page document. -/
theorem range_token_symmetric_witness :
    parseToken 10 "5-2".data = parseToken 10 "2-5".data :=
  range_token_symmetric.1 10 "5-2".data "2-5".data 5 2 (by decide) (by decide)

/-- C10: only the exactly-empty input string leaves the page list unchanged
(the guard returns early on it); any non-empty string whose tokens produce no
valid index — a whitespace-only string or `"abc"` among them — replaces the
selection with the empty set, deselecting every page. -/
theorem applyRange_empty_vs_invalid :
    (∀ (mode : Mode) (pages : List PagePreview), applyRange mode [] pages = pages) ∧
      (∀ (s : Str) (pages : List PagePreview), s ≠ [] →
        applyRangeSet s pages.length = ∅ →
        applyRange Mode.custom s pages =
          pages.map fun p => { p with selected := false }) ∧
      applyRangeSet " ".data 10 = ∅ ∧
      applyRangeSet "abc".data 10 = ∅ := by
  refine ⟨?_, ?_, by decide, by decide⟩
  · intro mode pages
    simp [applyRange]
  · intro s pages hs hset
    simp [applyRange, hs, hset]

/-- C10 witness: applying `"abc"` to a single selected page deselects it —
the application is not a no-op. -/
theorem applyRange_empty_vs_invalid_witness :
    applyRange Mode.custom "abc".data [PagePreview.mk 0 "u".data true] =
      [PagePreview.mk 0 "u".data true].map (fun p => { p with selected := false }) :=
  applyRange_empty_vs_invalid.2.1 "abc".data [PagePreview.mk 0 "u".data true]
    (by decide) (by decide)

lemma chunkIndices_mem (N k i j : Nat) :
    j ∈ chunkIndices N k i ↔ chunkStart k i ≤ j ∧ j < chunkEnd N k i := by
  unfold chunkIndices
  simp only [List.mem_map, List.mem_range]
  constructor
  · rintro ⟨m, hm, rfl⟩
    omega
  · rintro ⟨h1, h2⟩
    exact ⟨j - chunkStart k i, by omega, by omega⟩

/-- C2: the fixed-size partitioner produces exactly `⌈pageCount / k⌉` groups
(characterized by `N ≤ k * count < N + k`); group `i` holds exactly the
indices of `[i*k, min(i*k + k, N))`; the groups are pairwise disjoint; every
index below `N` is covered and no index outside `[0, N)` appears; 10 pages
with chunk size 3 give the four groups `[0-2],[3-5],[6-8],[9-9]`; and
`k ≥ pageCount ≥ 1` gives exactly one group containing all pages. -/
theorem fixedChunks_partition (N k : Nat) (hk : 1 ≤ k) :
    (fixedChunks N k).length = chunkCount N k ∧
      N ≤ k * chunkCount N k ∧ k * chunkCount N k < N + k ∧
      (∀ i j, j ∈ chunkIndices N k i ↔ i * k ≤ j ∧ j < min (i * k + k) N) ∧
      (∀ i₁ i₂ j, j ∈ chunkIndices N k i₁ → j ∈ chunkIndices N k i₂ → i₁ = i₂) ∧
      (∀ j, j < N → ∃ i, i < chunkCount N k ∧ j ∈ chunkIndices N k i) ∧
      (∀ i j, j ∈ chunkIndices N k i → j < N) ∧
      fixedChunks 10 3 = [[0, 1, 2], [3, 4, 5], [6, 7, 8], [9]] ∧
      (1 ≤ N → N ≤ k → fixedChunks N k = [List.range N]) := by
  have hmem : ∀ i j, j ∈ chunkIndices N k i ↔ i * k ≤ j ∧ j < min (i * k + k) N := by
    intro i j
    rw [chunkIndices_mem]
    unfold chunkStart chunkEnd
    omega
  have hdiv := Nat.div_add_mod (N + k - 1) k
  have hmod : (N + k - 1) % k < k := Nat.mod_lt _ hk
  refine ⟨?_, ?_, ?_, hmem, ?_, ?_, ?_, by decide, ?_⟩
  · simp [fixedChunks]
  · unfold chunkCount
    omega
  · unfold chunkCount
    omega
  · intro i₁ i₂ j h1 h2
    rw [hmem] at h1 h2
    by_contra hne
    rcases Nat.lt_or_ge i₁ i₂ with hlt | hge
    · have : (i₁ + 1) * k ≤ i₂ * k := Nat.mul_le_mul_right k hlt
      have hexp : (i₁ + 1) * k = i₁ * k + k := by ring
      omega
    · have hlt : i₂ < i₁ := by omega
      have : (i₂ + 1) * k ≤ i₁ * k := Nat.mul_le_mul_right k hlt
      have hexp : (i₂ + 1) * k = i₂ * k + k := by ring
      omega
  · intro j hj
    refine ⟨j / k, ?_, ?_⟩
    · have h1 : j / k ≤ (N - 1) / k := Nat.div_le_div_right (by omega)
      have h2 : N + k - 1 = (N - 1) + k := by omega
      have h3 : ((N - 1) + k) / k = (N - 1) / k + 1 := Nat.add_div_right _ hk
      unfold chunkCount
      rw [h2, h3]
      omega
    · rw [hmem]
      have h1 := Nat.div_add_mod j k
      have h2 : j % k < k := Nat.mod_lt _ hk
      have h3 : j / k * k = k * (j / k) := Nat.mul_comm _ _
      omega
  · intro i j hj
    rw [hmem] at hj
    omega
  · intro hN hNk
    have h1 : N + k - 1 = (N - 1) + k := by omega
    have h2 : chunkCount N k = 1 := by
      unfold chunkCount
      rw [h1, Nat.add_div_right _ hk, Nat.div_eq_of_lt (by omega)]
    have h3 : chunkIndices N k 0 = List.range N := by
      unfold chunkIndices chunkStart chunkEnd
      have hmin : min (0 * k + k) N = N := by omega
      rw [hmin]
      simp
    rw [fixedChunks, h2]
    simp [List.range_succ, h3]

/-- C2 witness: the partition properties instantiated at 10 pages with chunk
size 3. -/
theorem fixedChunks_partition_witness :
    fixedChunks 10 3 = [[0, 1, 2], [3, 4, 5], [6, 7, 8], [9]] :=
  (fixedChunks_partition 10 3 (by decide)).2.2.2.2.2.2.2.1

/-- C5 counterexample: triggering processing in custom mode with nothing
selected returns early with no artifact, but no user-facing notice fires —
`alert` is reached only from the `catch` branch, never from the
empty-selection guard — contradicting the claim that a generic notice is
surfaced. -/
theorem empty_selection_counterexample :
    (processPDF Mode.custom OutputMode.single 1 0
        [PagePreview.mk 0 "u".data false]).result = none ∧
      (processPDF Mode.custom OutputMode.single 1 0
        [PagePreview.mk 0 "u".data false]).alerted = false := by
  decide

/-- C5 amended: in custom mode with an empty selection, processing aborts
silently — no artifact is produced, no notice fires, and the page state is
untouched (the function never writes the page list); moreover the UI already
disables the process button in exactly this state. -/
theorem empty_selection_aborts_silently (om : OutputMode) (k ts : Nat)
    (pages : List PagePreview)
    (h : (pages.filter fun p => p.selected).length = 0) :
    processPDF Mode.custom om k ts pages = ⟨none, false⟩ ∧
      processDisabled false Mode.custom pages = true := by
  constructor
  · cases om <;> simp [processPDF, h]
  · simp [processDisabled, h]

/-- C5 witness: the silent abort on a concrete one-page list with nothing
selected. -/
theorem empty_selection_aborts_silently_witness :
    processPDF Mode.custom OutputMode.separate 1 0
        [PagePreview.mk 0 "u".data false] = ⟨none, false⟩ ∧
      processDisabled false Mode.custom [PagePreview.mk 0 "u".data false] = true :=
  empty_selection_aborts_silently OutputMode.separate 1 0
    [PagePreview.mk 0 "u".data false] (by decide)

/-- C6: applying a non-empty range string replaces the prior selection
entirely — two page lists with the same indices but arbitrary prior
selection flags end in identical `(index, selected)` states, and every page
ends selected exactly when its index is in the parsed set. -/
theorem applyRange_replaces_selection (s : Str) (hs : s ≠ [])
    (pages₁ pages₂ : List PagePreview)
    (hidx : pages₁.map PagePreview.index = pages₂.map PagePreview.index) :
    (applyRange Mode.custom s pages₁).map (fun p => (p.index, p.selected)) =
        (applyRange Mode.custom s pages₂).map (fun p => (p.index, p.selected)) ∧
      ∀ p ∈ applyRange Mode.custom s pages₁,
        p.selected = decide (p.index ∈ applyRangeSet s pages₁.length) := by
  have hlen : pages₁.length = pages₂.length := by
    have := congrArg List.length hidx
    simpa using this
  have key : ∀ (pages : List PagePreview) (S : Finset Int),
      ((pages.map fun p => { p with selected := decide (p.index ∈ S) }).map
          fun p => (p.index, p.selected)) =
        (pages.map PagePreview.index).map fun i => (i, decide (i ∈ S)) := by
    intro pages S
    simp only [List.map_map]
    rfl
  constructor
  · rw [applyRange, applyRange, if_neg (by simp [hs]), if_neg (by simp [hs])]
    rw [key, key, hidx, hlen]
  · intro p hp
    rw [applyRange, if_neg (by simp [hs])] at hp
    simp only [List.mem_map] at hp
    obtain ⟨q, _, rfl⟩ := hp
    rfl

/-- C6 witness: the same range string `"1"` applied to a page list whose
single page starts deselected and to one whose single page starts selected
produces identical final selection states. -/
theorem applyRange_replaces_selection_witness :
    (applyRange Mode.custom "1".data [PagePreview.mk 0 "u".data false]).map
        (fun p => (p.index, p.selected)) =
      (applyRange Mode.custom "1".data [PagePreview.mk 0 "u".data true]).map
        (fun p => (p.index, p.selected)) :=
  (applyRange_replaces_selection "1".data (by decide)
    [PagePreview.mk 0 "u".data false] [PagePreview.mk 0 "u".data true]
    (by decide)).1

/-- C7: fixed-size processing always wraps its output in a zip archive —
also when only one chunk results — with exactly one entry per chunk, the
entry for chunk `i` being named
`part_(i+1)_pages_(i*k+1)-(min (i*k+k) N)` over the chunk's page indices. -/
theorem processPDF_fixed_zip (om : OutputMode) (k ts : Nat)
    (pages : List PagePreview) (_hk : 1 ≤ k) :
    processPDF Mode.fixed om k ts pages =
        ⟨some (Artifact.zip ("split_fixed_".data ++ natStr ts ++ ".zip".data)
          ((List.range (chunkCount pages.length k)).map fun i =>
            ("part_".data ++ natStr (i + 1) ++ "_pages_".data
                ++ natStr (i * k + 1) ++ "-".data
                ++ natStr (min (i * k + k) pages.length) ++ ".pdf".data,
             (chunkIndices pages.length k i).map fun j => (j : Int)))), false⟩ ∧
      ((List.range (chunkCount pages.length k)).map
          (fixedEntry pages.length k)).length = chunkCount pages.length k := by
  refine ⟨rfl, by simp⟩

/-- C7 witness: the fixed split of a concrete 4-page list with chunk size 3
yields the zip with entries `part_1_pages_1-3` and `part_2_pages_4-4`. -/
theorem processPDF_fixed_zip_witness :
    processPDF Mode.fixed OutputMode.single 3 0
        (List.range 4 |>.map fun i => PagePreview.mk i "u".data false) =
      ⟨some (Artifact.zip ("split_fixed_".data ++ natStr 0 ++ ".zip".data)
        ((List.range (chunkCount 4 3)).map fun i =>
          ("part_".data ++ natStr (i + 1) ++ "_pages_".data
              ++ natStr (i * 3 + 1) ++ "-".data
              ++ natStr (min (i * 3 + 3) 4) ++ ".pdf".data,
           (chunkIndices 4 3 i).map fun j => (j : Int)))), false⟩ :=
  ((processPDF_fixed_zip OutputMode.single 3 0
    (List.range 4 |>.map fun i => PagePreview.mk i "u".data false)
    (by decide)).1).trans (by decide)

/-- C8: custom-mode "separate" output over a non-empty selection zips
exactly one single-page document per selected page, the entry for the page
with zero-based index `i` being named `page_(i+1)` from its 1-based index. -/
theorem processPDF_separate_entries (k ts : Nat) (pages : List PagePreview)
    (h : (pages.filter fun p => p.selected).length ≠ 0) :
    processPDF Mode.custom OutputMode.separate k ts pages =
        ⟨some (Artifact.zip ("extracted_pages_".data ++ natStr ts ++ ".zip".data)
          ((pages.filter fun p => p.selected).map fun p =>
            ("page_".data ++ intStr (p.index + 1) ++ ".pdf".data, [p.index]))), false⟩ ∧
      ((pages.filter fun p => p.selected).map fun p =>
          ("page_".data ++ intStr (p.index + 1) ++ ".pdf".data, [p.index])).length =
        (pages.filter fun p => p.selected).length := by
  refine ⟨?_, by simp⟩
  simp [processPDF, h]

/-- C8 witness: separate output over a two-page list with only the second
page (index 1) selected yields one entry, named `page_2` and holding index
1 alone. -/
theorem processPDF_separate_entries_witness :
    processPDF Mode.custom OutputMode.separate 1 0
        [PagePreview.mk 0 "u".data false, PagePreview.mk 1 "u".data true] =
      ⟨some (Artifact.zip ("extracted_pages_".data ++ natStr 0 ++ ".zip".data)
        [("page_".data ++ intStr 2 ++ ".pdf".data, [1])]), false⟩ :=
  ((processPDF_separate_entries 1 0
    [PagePreview.mk 0 "u".data false, PagePreview.mk 1 "u".data true]
    (by decide)).1).trans (by decide)

end ToolsHub
